import Mathlib

/-!
Verification development for the "Song to Bolly Beat" repository.

The repository's core is a video-queue state machine (several revisions of
`useVideoQueue`), a recognition scheduler (`useShazamRecognition`), a
continuous-transcription unit (`useContinuousListening`), and a recognize
server (`backend/recognize/server.ts`).  This file gives a shallow embedding
of those components, faithful to the TypeScript sources, and proves the
properties of the specification against them.
-/

namespace BollyBeat

/-! ### String model

JavaScript `String.prototype.trim` and `toLowerCase` are modelled as
executable functions over the character data, so that all definitions
compute in the kernel. -/

/-- Whitespace predicate used by the model of JS `trim()`. -/
def wsChar (c : Char) : Bool := c.isWhitespace

/-- Drop leading and trailing whitespace from a character list. -/
def trimChars (l : List Char) : List Char :=
  ((l.dropWhile wsChar).reverse.dropWhile wsChar).reverse

/-- Model of JS `query.trim()`. -/
def jsTrim (s : String) : String := ⟨trimChars s.data⟩

/-- Model of JS `query.toLowerCase()` (ASCII case folding). -/
def jsToLower (s : String) : String := ⟨s.data.map Char.toLower⟩

/-- `query.trim().toLowerCase()`: the normalized form used for query dedup. -/
def normalizeQuery (q : String) : String := jsToLower (jsTrim q)

/-- A YouTube video candidate, as in `useYouTubeSearch.ts` (`YouTubeVideo`):
id, title, channelTitle, thumbnail, description.  Identity is the `id`. -/
structure Video where
  id : String
  title : String
  channelTitle : String
  thumbnail : String
  description : String
deriving DecidableEq

/-- The ids of a list of videos (`prev.map(v => v.id)`). -/
def videoIds (l : List Video) : List String := l.map (·.id)

/-- Deduplication of a fetched batch against the existing items:
`newVideos.filter(v => !existingIds.has(v.id))`. -/
def uniqueAgainst (existing newVideos : List Video) : List Video :=
  newVideos.filter (fun v => !(videoIds existing).contains v.id)

/-- Result of one underlying video-search call: the ordered list of fetched
videos, or the error message thrown (`fnError.message` / `data.error`). -/
inductive FetchResult where
  | ok (videos : List Video)
  | error (msg : String)
deriving DecidableEq

/-- The static fallback payload hard-coded in the frontend
`useVideoQueue.ts` catch branch (`fallbackPayload.videos`). -/
def fallbackVideos : List Video :=
  [ { id := "gsSfJAI6h9g", title := "RAM AAYENGE LONG VERSION",
      channelTitle := "RITU\x27S DANCE STUDIO",
      thumbnail := "https://i.ytimg.com/vi/gsSfJAI6h9g/hqdefault.jpg", description := "" },
    { id := "UPDDPeF6ktU",
      title := "Ram Ayenge Bhajan | Dance Video | Vishal Mishra,Payal Dev, Manoj Muntasir | श्री राम प्राण प्रतिष्ठा",
      channelTitle := "Apne Dance Classes",
      thumbnail := "https://i.ytimg.com/vi/UPDDPeF6ktU/hqdefault.jpg",
      description := "ramayengebhajan #vishalmishra #rambhajan Ram Ayenge Bhajan Vishal Mishra Payal Dev Manoj muntasir Bhushan Kumar ..." },
    { id := "LMXdTT9mPQE",
      title := "Ram Aayenge X Mere Ghar Ram Aaye Hai | Dance Video | 22 January 🚩 | The KDH Family",
      channelTitle := "𝑻𝒉𝒆 𝑲𝑫𝑯 𝑭𝒂𝒎𝒊𝒍𝒚",
      thumbnail := "https://i.ytimg.com/vi/LMXdTT9mPQE/hqdefault.jpg",
      description := "Ram Aayenge X Mere Ghar Ram Aaye Hai | Dance Video | 22 January | The KDH Family Jai Shree Ram . Thanks for ..." },
    { id := "QPxu18lMiCc",
      title := "Ram Aayenge Dance (राम आएंगे) || Jai Shree Ram || Ayodhya",
      channelTitle := "Bindass Mamta",
      thumbnail := "https://i.ytimg.com/vi/QPxu18lMiCc/hqdefault.jpg",
      description := "Ram Aayenge Dance (राम आएंगे) || Jai Shree Ram || Ayodhya Ram Aayenge Song Details: Song: Ram Aayenge Singer: ..." },
    { id := "kDMKiF1gFXE", title := "RAM AAYENGE DANCE- VIShal mishra song- jai shri Ram.",
      channelTitle := "RITU\x27S DANCE STUDIO",
      thumbnail := "https://i.ytimg.com/vi/kDMKiF1gFXE/hqdefault.jpg", description := "" },
    { id := "BDBt2dFAP1c",
      title := "Mere ghar Ram Aaye/@jubinnautiyal@tseries Hai#ram#ayodhya#jalpashelatchoreography @jalpashelat",
      channelTitle := "Jaltarang Dance Academy",
      thumbnail := "https://i.ytimg.com/vi/BDBt2dFAP1c/hqdefault.jpg",
      description := "Kindly Like Share Comment and Subscribe to Our Channel Jaltarang Dance Academy ♥ it\x27s a girl\x27s Dance Academy located at ..." },
    { id := "o-2eoKQRVHw",
      title := "Ram Ayenge || aaj gali gali avadh sajayenge 💫 || Ram mandir 🚩|| Vishal Mishra || Dipika Chikhlia",
      channelTitle := "Blooming Dance",
      thumbnail := "https://i.ytimg.com/vi/o-2eoKQRVHw/hqdefault.jpg",
      description := "Namste This is Bhakti Tamboli here ☺️ राम मंदिर प्राण प्रतिष्ठा में अब कुछ ही समय ..." },
    { id := "XL2qju0HE54",
      title := "Ram aayenge | Vishal Mishra | Dance | Video | Akash Rajput Choreography | Easy steps for kids",
      channelTitle := "Akash Rajput _The Dance Shadow ",
      thumbnail := "https://i.ytimg.com/vi/XL2qju0HE54/hqdefault.jpg",
      description := "Audio track credit - @tseries officials @TSeriesBhaktiSagar Dance video - @Akashrajput_TDS #ram #ramayenge #dance #kids ..." },
    { id := "4pmoUNwcVFQ",
      title := "MERE GHAR RAM- FULL DANCE/ DIWALI Dance/ JUBIN NAUTIYAL/ T SERIES/ JAI SHRI RAM/ BHAJAN DANCE",
      channelTitle := "RITU\x27S DANCE STUDIO",
      thumbnail := "https://i.ytimg.com/vi/4pmoUNwcVFQ/hqdefault.jpg", description := "" },
    { id := "o5DCiLbQZU8",
      title := "Ram Ayenge | @madhavasrockband | Dance Cover by Seema Gondhi | Ram Mandir Ayodhya",
      channelTitle := "Dance Love Passion",
      thumbnail := "https://i.ytimg.com/vi/o5DCiLbQZU8/hqdefault.jpg",
      description := "rammandir #ayodhya #ramayenge Ram Ayenge | @madhavasrockband | Dance Tutorial by Seema Gondhi | #rammandir ..." } ]

/-! ### The `src/src/hooks/useVideoQueue.ts` queue variant -/

/-- State of the `src/src/hooks/useVideoQueue.ts` hook: the `videos` and
`currentIndex` React state, the `error`/`isLoading` state, and the
`searchedQueriesRef` set of normalized queries. -/
structure SrcState where
  videos : List Video
  currentIndex : Nat
  searchedQueries : List String
  error : Option String
  isLoading : Bool
deriving DecidableEq

/-- Initial state of the `src/src` hook: empty queue, index 0. -/
def srcInit : SrcState := ⟨[], 0, [], none, false⟩

/-- `addVideosFromQuery(query)` of `src/src/hooks/useVideoQueue.ts`, with the
network fetch abstracted into a `FetchResult` argument.  Returns the new state
and whether an underlying search call was issued.  Faithful details: the
normalized (trim + lowercase) query is added to `searchedQueriesRef` before
the fetch; on success only the id-unique new videos are prepended, but
`currentIndex` is shifted by `newVideos.length` (the full fetched count); on
failure only `error` is set. -/
def srcEnqueue (query : String) (res : FetchResult) (s : SrcState) : SrcState × Bool :=
  if jsTrim query = "" then (s, false)
  else
    let normalizedQuery := normalizeQuery query
    if s.searchedQueries.contains normalizedQuery then (s, false)
    else
      let s0 : SrcState :=
        { s with searchedQueries := normalizedQuery :: s.searchedQueries,
                 isLoading := true, error := none }
      match res with
      | .ok newVideos =>
        let uniqueNewVideos := uniqueAgainst s0.videos newVideos
        ({ s0 with videos := uniqueNewVideos ++ s0.videos,
                   currentIndex := s0.currentIndex + newVideos.length,
                   isLoading := false }, true)
      | .error msg =>
        ({ s0 with error := some msg, isLoading := false }, true)

/-- `goToNext()` of `src/src/hooks/useVideoQueue.ts`: advance if not at the
last item, then (deferred) trim the queue to `slice(0, newIndex + 5)`. -/
def srcGoToNext (s : SrcState) : SrcState :=
  if s.currentIndex + 1 < s.videos.length then
    { s with currentIndex := s.currentIndex + 1,
             videos := s.videos.take (s.currentIndex + 1 + 5) }
  else s

/-- `goToPrevious()` of `src/src/hooks/useVideoQueue.ts`. -/
def srcGoToPrevious (s : SrcState) : SrcState :=
  if s.currentIndex > 0 then { s with currentIndex := s.currentIndex - 1 } else s

/-- `clearQueue()` of `src/src/hooks/useVideoQueue.ts`. -/
def srcClearQueue (s : SrcState) : SrcState :=
  { s with videos := [], currentIndex := 0, searchedQueries := [] }

/-- One user-visible operation on the `src/src` queue hook. -/
inductive SrcOp where
  | enq (query : String) (res : FetchResult)
  | next
  | back
  | clearQ
deriving DecidableEq

/-- Run a sequence of operations on the `src/src` queue hook. -/
def srcRun (ops : List SrcOp) (s : SrcState) : SrcState :=
  ops.foldl (fun st op =>
    match op with
    | .enq q res => (srcEnqueue q res st).1
    | .next => srcGoToNext st
    | .back => srcGoToPrevious st
    | .clearQ => srcClearQueue st) s

/-! ### The `src/frontend/src/hooks/useVideoQueue.ts` queue variant

This revision calls the Supabase edge function for the search and, in its
catch branch, substitutes the hard-coded `fallbackPayload` and clears the
error.  Its replace mode clears the whole queue before searching. -/

/-- State of the frontend `useVideoQueue.ts` hook: adds `currentQueryRef`
to the `src/src` state. -/
structure FrontState where
  videos : List Video
  currentIndex : Nat
  searchedQueries : List String
  currentQuery : String
  error : Option String
  isLoading : Bool
deriving DecidableEq

/-- Initial state of the frontend hook. -/
def frontInit : FrontState := ⟨[], 0, [], "", none, false⟩

/-- The append-mode merge of the frontend `useVideoQueue.ts` (its
`setVideos(prev => ...)` body plus the deferred index adjustment): prepend
the id-unique new videos; if no videos existed before, start at 0; else
shift `currentIndex` by the count of unique new videos (if any). -/
def mergeAppendFront (s : FrontState) (newVideos : List Video) : FrontState :=
  let uniqueNewVideos := uniqueAgainst s.videos newVideos
  let updatedVideos := uniqueNewVideos ++ s.videos
  if s.videos = [] then
    { s with videos := updatedVideos, currentIndex := 0 }
  else if uniqueNewVideos = [] then
    { s with videos := updatedVideos }
  else
    { s with videos := updatedVideos,
             currentIndex := s.currentIndex + uniqueNewVideos.length }

/-- `addVideosFromQuery(query, false)` of the frontend `useVideoQueue.ts`
(append mode), with the fetch abstracted.  On failure the hard-coded
`fallbackPayload.videos` are merged exactly as a success would merge them,
and the error is cleared (`setError(null)`). -/
def frontEnqueueAppend (query : String) (res : FetchResult) (s : FrontState) :
    FrontState × Bool :=
  if jsTrim query = "" then (s, false)
  else
    let normalizedQuery := normalizeQuery query
    if s.searchedQueries.contains normalizedQuery then (s, false)
    else
      let s0 : FrontState :=
        { s with searchedQueries := normalizedQuery :: s.searchedQueries,
                 isLoading := true, error := none }
      match res with
      | .ok newVideos =>
        ({ mergeAppendFront s0 newVideos with isLoading := false }, true)
      | .error _ =>
        ({ mergeAppendFront s0 fallbackVideos with error := none, isLoading := false }, true)

/-- `addVideosFromQuery(query, true)` of the frontend `useVideoQueue.ts`
(replace mode): for a different query it clears `videos`, resets
`currentIndex` to 0 and empties the searched set before fetching; the
results (or the fallback payload) then become the whole queue. -/
def frontEnqueueReplace (query : String) (res : FetchResult) (s : FrontState) :
    FrontState × Bool :=
  if jsTrim query = "" then (s, false)
  else
    let normalizedQuery := normalizeQuery query
    if normalizedQuery = jsToLower s.currentQuery then (s, false)
    else
      let s0 : FrontState :=
        { s with videos := [], currentIndex := 0, searchedQueries := [],
                 currentQuery := jsTrim query, isLoading := true, error := none }
      match res with
      | .ok newVideos =>
        ({ s0 with videos := newVideos, currentIndex := 0,
                   searchedQueries := [normalizedQuery], isLoading := false }, true)
      | .error _ =>
        ({ s0 with videos := fallbackVideos, currentIndex := 0,
                   searchedQueries := [normalizedQuery], error := none,
                   isLoading := false }, true)

/-! ### The swap-choreography queue variant

The latest `useVideoQueue` revision (stored alongside
`useShazamRecognition.ts` in `src/frontend/src/hooks`): replace mode keeps
the items up to and including `currentIndex`, appends the unique new items
after them, then advances the pointer by one and finally removes the item
that was previously playing, decrementing the pointer to compensate.  The
timer-driven phases are modelled as explicit functions; an operation runs
its scheduled phases to completion. -/

/-- State of the swap-choreography hook: adds `currentVideoIdRef` and
`currentIndexRef` (kept in sync with `currentIndex`). -/
structure SwapState where
  videos : List Video
  currentIndex : Nat
  searchedQueries : List String
  currentQuery : String
  currentVideoId : Option String
  error : Option String
  isLoading : Bool
deriving DecidableEq

/-- Initial state of the swap-choreography hook. -/
def swapInit : SwapState := ⟨[], 0, [], "", none, none, false⟩

/-- The synchronous part of replace mode before the fetch: keep the videos
up to and including `currentIndex` (`prev.slice(0, currentIdx + 1)`), do not
reset `currentIndex`, clear the searched set, remember the new query. -/
def replaceTruncate (s : SwapState) (query : String) : SwapState :=
  { s with videos := s.videos.take (s.currentIndex + 1),
           searchedQueries := [], currentQuery := jsTrim query,
           error := none, isLoading := true }

/-- The replace-mode merge once the fetch has returned: append the
id-unique new videos after the preserved prefix and mark the query
searched.  The pointer is not moved here. -/
def replaceMerge (s : SwapState) (newVideos : List Video) (normalizedQuery : String) :
    SwapState :=
  { s with videos := s.videos ++ uniqueAgainst s.videos newVideos,
           searchedQueries := normalizedQuery :: s.searchedQueries }

/-- The first scheduled swap phase (the 500 ms timeout): advance
`currentIndex` by one and point `currentVideoIdRef` at the video now under
the pointer, when it exists. -/
def swapAdvance (s : SwapState) : SwapState :=
  { s with currentIndex := s.currentIndex + 1,
           currentVideoId :=
             match s.videos.get? (s.currentIndex + 1) with
             | some v => some v.id
             | none => s.currentVideoId }

/-- The second scheduled swap phase (the 300 ms timeout): remove the video
at the pre-advance index and decrement `currentIndex` to compensate. -/
def swapRemoveOld (s : SwapState) (prevIndex : Nat) : SwapState :=
  { s with videos := s.videos.eraseIdx prevIndex,
           currentIndex := s.currentIndex - 1 }

/-- Replace mode after the fetch: merge, and when at least one unique new
video arrived run the two scheduled swap phases. -/
def replaceAfterFetch (s1 : SwapState) (newVideos : List Video) (normalizedQuery : String) :
    SwapState :=
  let s2 := replaceMerge s1 newVideos normalizedQuery
  if uniqueAgainst s1.videos newVideos = [] then { s2 with isLoading := false }
  else { swapRemoveOld (swapAdvance s2) s2.currentIndex with isLoading := false }

/-- `addVideosFromQuery(query, true, _)` of the swap-choreography revision:
no-op for an empty or unchanged query, otherwise truncate, fetch, merge and
swap.  On failure the fallback payload is used and the error cleared. -/
def swapEnqueueReplace (query : String) (res : FetchResult) (s : SwapState) : SwapState :=
  if jsTrim query = "" then s
  else
    let normalizedQuery := normalizeQuery query
    if normalizedQuery = jsToLower s.currentQuery then s
    else
      let s1 := replaceTruncate s query
      match res with
      | .ok newVideos => replaceAfterFetch s1 newVideos normalizedQuery
      | .error _ => { replaceAfterFetch s1 fallbackVideos normalizedQuery with error := none }

/-- The append-mode merge of the swap-choreography revision: nothing changes
when no unique new videos arrived; otherwise prepend them and either start
at 0 (empty queue), scroll to the first new video (`autoScroll`), or shift
the pointer by the unique count. -/
def swapMergeAppend (s : SwapState) (newVideos : List Video) (autoScroll : Bool) :
    SwapState :=
  let uniqueNewVideos := uniqueAgainst s.videos newVideos
  if uniqueNewVideos = [] then s
  else
    let updatedVideos := uniqueNewVideos ++ s.videos
    if s.videos = [] then
      { s with videos := updatedVideos, currentIndex := 0,
               currentVideoId :=
                 match updatedVideos.get? 0 with
                 | some v => some v.id
                 | none => s.currentVideoId }
    else if autoScroll then
      { s with videos := updatedVideos, currentIndex := 0,
               currentVideoId :=
                 match updatedVideos.get? 0 with
                 | some v => some v.id
                 | none => s.currentVideoId }
    else
      let newIndex := s.currentIndex + uniqueNewVideos.length
      { s with videos := updatedVideos, currentIndex := newIndex,
               currentVideoId :=
                 match updatedVideos.get? newIndex with
                 | some v => some v.id
                 | none => s.currentVideoId }

/-- `addVideosFromQuery(query, false, autoScroll)` of the swap-choreography
revision (append mode). -/
def swapEnqueueAppend (query : String) (autoScroll : Bool) (res : FetchResult)
    (s : SwapState) : SwapState :=
  if jsTrim query = "" then s
  else
    let normalizedQuery := normalizeQuery query
    if s.searchedQueries.contains normalizedQuery then s
    else
      let s0 : SwapState :=
        { s with searchedQueries := normalizedQuery :: s.searchedQueries,
                 isLoading := true, error := none }
      match res with
      | .ok newVideos =>
        { swapMergeAppend s0 newVideos autoScroll with isLoading := false }
      | .error _ =>
        { swapMergeAppend s0 fallbackVideos autoScroll with error := none, isLoading := false }

/-- `goToNext()` of the swap-choreography revision: advance when not at the
last item, update `currentVideoIdRef`, then (deferred) trim the queue to
`slice(0, newIndex + 5)`. -/
def swapGoToNext (s : SwapState) : SwapState :=
  if s.currentIndex + 1 < s.videos.length then
    let newIndex := s.currentIndex + 1
    { s with currentIndex := newIndex,
             currentVideoId :=
               match s.videos.get? newIndex with
               | some v => some v.id
               | none => s.currentVideoId,
             videos := s.videos.take (newIndex + 5) }
  else s

/-- `goToPrevious()` of the swap-choreography revision. -/
def swapGoToPrevious (s : SwapState) : SwapState :=
  if s.currentIndex > 0 then
    let newIndex := s.currentIndex - 1
    { s with currentIndex := newIndex,
             currentVideoId :=
               match s.videos.get? newIndex with
               | some v => some v.id
               | none => s.currentVideoId }
  else s

/-- `clearQueue()` of the swap-choreography revision. -/
def swapClearQueue (_s : SwapState) : SwapState := swapInit

/-- One user-visible operation on the swap-choreography queue hook. -/
inductive QueueOp where
  | append (query : String) (autoScroll : Bool) (res : FetchResult)
  | replace (query : String) (res : FetchResult)
  | next
  | back
  | clearQ
deriving DecidableEq

/-- Apply one operation (running its scheduled phases to completion). -/
def swapStep (s : SwapState) (op : QueueOp) : SwapState :=
  match op with
  | .append q auto res => swapEnqueueAppend q auto res s
  | .replace q res => swapEnqueueReplace q res s
  | .next => swapGoToNext s
  | .back => swapGoToPrevious s
  | .clearQ => swapClearQueue s

/-- Run a sequence of operations on the swap-choreography queue hook. -/
def swapRun (ops : List QueueOp) : SwapState := ops.foldl swapStep swapInit

/-! ### The continuous transcription unit (`useContinuousListening.ts`)

Transcript text is modelled as a character list so that the trimming
behaviour of `emitTranscript` can be reasoned about directly. -/

/-- State of `useContinuousListening`: the `accumulatedTextRef` and
`lastEmittedTextRef` refs. -/
structure TranscriptState where
  accumulated : List Char
  lastEmitted : List Char
deriving DecidableEq

/-- Initial transcript state, as set by `startListening()`. -/
def transcriptInit : TranscriptState := ⟨[], []⟩

/-- `emitTranscript()` of `useContinuousListening.ts` (with the `onNewTranscript`
callback installed): trim the accumulator; when the trimmed text is non-empty
and differs from the last emitted value, emit it, record it as last emitted
and clear the accumulator; otherwise do nothing. -/
def emitTranscript (s : TranscriptState) : TranscriptState × Option (List Char) :=
  let text := trimChars s.accumulated
  if text ≠ [] ∧ text ≠ s.lastEmitted then
    (⟨[], text⟩, some text)
  else (s, none)

/-- The `recognition.onresult` handler's accumulation step: a finalized
speech segment is appended to the accumulator as `accumulated + ' ' + final`
when it is non-empty (interim segments are not accumulated). -/
def onResultFinal (s : TranscriptState) (finalTranscript : List Char) : TranscriptState :=
  if finalTranscript ≠ [] then
    { s with accumulated := s.accumulated ++ ' ' :: finalTranscript }
  else s

/-- One event of the transcription unit: a finalized speech segment, or an
emission-interval tick. -/
inductive TEvent where
  | finalSeg (t : List Char)
  | tick
deriving DecidableEq

/-- Run the transcription unit over a sequence of events, collecting the
emitted texts in order. -/
def runTranscript (s : TranscriptState) : List TEvent → TranscriptState × List (List Char)
  | [] => (s, [])
  | .finalSeg t :: rest => runTranscript (onResultFinal s t) rest
  | .tick :: rest =>
    let (s1, em) := emitTranscript s
    let (sf, ems) := runTranscript s1 rest
    (sf, em.toList ++ ems)

/-- Fold a list of finalized segments into the state. -/
def applyFinals (s : TranscriptState) (segs : List (List Char)) : TranscriptState :=
  segs.foldl onResultFinal s

/-! ### The rate-limited recognition scheduler (`useShazamRecognition`, timed revision)

This revision keeps `lastApiCallTimeRef` and enforces `intervalMs` between
recognition-service calls both at capture time (deferring the capture) and
in the `audioBlob` effect (skipping the call). -/

/-- One arrival of a captured `audioBlob` at the processing effect.
`ready` bundles the effect's `!isProcessing && isEnabled` guard. -/
structure BlobEvent where
  time : Nat
  ready : Bool
deriving DecidableEq

/-- The timing gate of the `audioBlob` effect: when `lastApiCallTime` is 0
the first call is allowed (`intervalMs + 1`), otherwise the elapsed time
must have reached `intervalMs`; a passing event updates `lastApiCallTime`
to `now` and issues the recognition-service call. -/
def gateStep (intervalMs lastApiCallTime : Nat) (e : BlobEvent) : Nat × Bool :=
  if e.ready then
    let timeSinceLastCall :=
      if lastApiCallTime = 0 then intervalMs + 1 else e.time - lastApiCallTime
    if timeSinceLastCall < intervalMs then (lastApiCallTime, false)
    else (e.time, true)
  else (lastApiCallTime, false)

/-- The times at which the recognition service is actually called, over a
sequence of blob arrivals. -/
def gateCalls (intervalMs : Nat) : Nat → List BlobEvent → List Nat
  | _, [] => []
  | lastApiCallTime, e :: es =>
    let p := gateStep intervalMs lastApiCallTime e
    if p.2 then e.time :: gateCalls intervalMs p.1 es
    else gateCalls intervalMs p.1 es

/-- Outcome of one `captureAndIdentify()` tick. -/
inductive CaptureAction where
  | skip
  | deferRecheck (waitMs : Nat)
  | startNow
deriving DecidableEq

/-- `captureAndIdentify()` of the timed `useShazamRecognition` revision:
skip when disabled or a capture/recognition is in flight; when this is not
the first-ever call and less than `intervalMs` has elapsed since
`lastApiCallTimeRef`, defer via a one-shot timer for the remaining wait
(with the flight status re-checked before the deferred capture); otherwise
start the capture now. -/
def captureAndIdentify (isEnabled isCapturing isProcessing : Bool)
    (now lastApiCallTime intervalMs : Nat) : CaptureAction :=
  if !isEnabled || isCapturing || isProcessing then .skip
  else if 0 < lastApiCallTime ∧ now - lastApiCallTime < intervalMs then
    .deferRecheck (intervalMs - (now - lastApiCallTime))
  else .startNow

/-- The re-check inside the one-shot defer timer: the deferred capture
starts only if nothing is capturing or processing and recognition is still
enabled. -/
def deferredCaptureFires (isCapturing isProcessing isEnabled : Bool) : Bool :=
  !isCapturing && !isProcessing && isEnabled

/-! ### The recognize server and the untimed scheduler effect

`backend/recognize/server.ts` rejects uploads under 1000 bytes before the
recognition engine (`shazam.fromFilePath`) is invoked; the frontend
`useShazamRecognition.ts` effect sends every captured blob to the client and
treats a null client result as no match. -/

/-- A recognized track (`ShazamTrack`): the `key` is the dedup identity. -/
structure Track where
  key : String
  title : String
  subtitle : String
deriving DecidableEq

/-- What the recognition engine (`shazam.fromFilePath`) would produce if it
were invoked. -/
inductive EngineOutcome where
  | matched (t : Track)
  | noTrack
  | thrown (msg : String)
deriving DecidableEq

/-- Response of `POST /api/recognize`: HTTP status, success flag, optional
error and track, plus whether the recognition engine was actually invoked. -/
structure RecognizeResponse where
  status : Nat
  success : Bool
  error : Option String
  track : Option Track
  engineCalled : Bool
deriving DecidableEq

/-- The `POST /api/recognize` handler of `backend/recognize/server.ts`:
files under 1000 bytes are rejected with status 400 before the engine runs;
otherwise the engine result is translated to the response shape. -/
def handleRecognize (fileSize : Nat) (engine : EngineOutcome) : RecognizeResponse :=
  if fileSize < 1000 then
    { status := 400, success := false,
      error := some "Recording too short or empty. Allow the mic, play music, and try again.",
      track := none, engineCalled := false }
  else
    match engine with
    | .matched t =>
      { status := 200, success := true, error := none, track := some t, engineCalled := true }
    | .noTrack =>
      { status := 200, success := false, error := some "Could not identify the song.",
        track := none, engineCalled := true }
    | .thrown msg =>
      { status := 500, success := false, error := some msg, track := none, engineCalled := true }

/-- `identifySong` of `useShazam.ts`: posts the blob to the recognize
server; any non-2xx status or unsuccessful payload is caught and turned
into a null result (with a local error string), so the caller never sees an
exception. -/
def identifySong (resp : RecognizeResponse) : Option Track :=
  if resp.status = 200 ∧ resp.success then resp.track else none

/-- Outcome of the `audioBlob` effect of `useShazamRecognition.ts` for one
captured blob. -/
structure TickOutcome where
  clientCalled : Bool
  engineCalled : Bool
  songCallback : Option Track
  lastSeenTrackKey : Option String
  processingAfter : Bool
deriving DecidableEq

/-- The `audioBlob` effect of `useShazamRecognition.ts`: when enabled and
not already processing, call `identifySong` with the blob; fire the
identified-song callback only for a track whose key differs from
`lastTrackKeyRef`; always reset `isProcessing` in `finally`, so the
scheduler keeps ticking. -/
def processCapturedBlob (blobSize : Nat) (engine : EngineOutcome)
    (lastTrackKey : Option String) (isProcessing isEnabled : Bool) : TickOutcome :=
  if isProcessing || !isEnabled then
    ⟨false, false, none, lastTrackKey, isProcessing⟩
  else
    let resp := handleRecognize blobSize engine
    match identifySong resp with
    | some t =>
      if some t.key ≠ lastTrackKey then
        ⟨true, resp.engineCalled, some t, some t.key, false⟩
      else
        ⟨true, resp.engineCalled, none, lastTrackKey, false⟩
    | none => ⟨true, resp.engineCalled, none, lastTrackKey, false⟩

/-- Sample videos used by concrete scenarios (ids are the identity). -/
def mkVid (i : String) : Video := ⟨i, "", "", "", ""⟩

/-! ## Claims about the queue engines -/

/-- C2 (code bug): on queue `[V1,V2,V3]` with `currentIndex = 2` and a fetch
returning `[V1,V4]`, the `src/src` variant prepends only the unique video
`V4` but moves `currentIndex` to `4` (shifting by the full fetched count
`newVideos.length`), leaving the pointer out of bounds; the frontend variant
of the same operation shifts by the unique count and yields `currentIndex =
3`, still pointing at `V3`, as the claim states. -/
theorem c2_src_append_shifts_by_fetched_count :
    (srcEnqueue "x" (.ok [mkVid "V1", mkVid "V4"])
        ⟨[mkVid "V1", mkVid "V2", mkVid "V3"], 2, [], none, false⟩).1
      = ⟨[mkVid "V4", mkVid "V1", mkVid "V2", mkVid "V3"], 4, ["x"], none, false⟩ ∧
    (frontEnqueueAppend "x" (.ok [mkVid "V1", mkVid "V4"])
        ⟨[mkVid "V1", mkVid "V2", mkVid "V3"], 2, [], "", none, false⟩).1
      = ⟨[mkVid "V4", mkVid "V1", mkVid "V2", mkVid "V3"], 3, ["x"], "", none, false⟩ := by
  decide

/-- C3 (counterexample): a single append on the empty queue through the
`src/src` variant already breaks the pointer-bounds invariant: after
fetching one video, `items` is non-empty but `currentIndex = 1 =
items.length`. -/
theorem c3_src_append_breaks_pointer_bounds :
    (srcEnqueue "a" (.ok [mkVid "V1"]) srcInit).1.videos ≠ [] ∧
    ¬ (srcEnqueue "a" (.ok [mkVid "V1"]) srcInit).1.currentIndex
        < (srcEnqueue "a" (.ok [mkVid "V1"]) srcInit).1.videos.length := by
  decide

/-- Strengthened pointer invariant used for the induction: when the queue is
empty the pointer is 0, otherwise it is in bounds. -/
def swapInvS (s : SwapState) : Prop :=
  (s.videos = [] ∧ s.currentIndex = 0) ∨ s.currentIndex < s.videos.length

theorem swapInvS_mergeAppend (s : SwapState) (nv : List Video) (a : Bool)
    (h : swapInvS s) : swapInvS (swapMergeAppend s nv a) := by
  simp only [swapMergeAppend]
  split
  · exact h
  next hu =>
    have hu' : 0 < (uniqueAgainst s.videos nv).length := List.length_pos.mpr hu
    split
    next hv =>
      right
      simpa [List.length_append, hv] using hu'
    next hv =>
      have hlen : 0 < s.videos.length := List.length_pos.mpr hv
      rcases h with ⟨h1, _⟩ | h2
      · exact absurd h1 hv
      · split
        · right
          simp only [List.length_append]
          omega
        · right
          simp only [List.length_append]
          omega

theorem swapInvS_enqueueAppend (s : SwapState) (q : String) (a : Bool)
    (res : FetchResult) (h : swapInvS s) : swapInvS (swapEnqueueAppend q a res s) := by
  simp only [swapEnqueueAppend]
  split
  · exact h
  split
  · exact h
  have h0 : swapInvS { s with
      searchedQueries := normalizeQuery q :: s.searchedQueries,
      isLoading := true, error := none } := h
  match res with
  | .ok nv => exact swapInvS_mergeAppend _ nv a h0
  | .error msg => exact swapInvS_mergeAppend _ fallbackVideos a h0

theorem swapInvS_replaceAfterFetch (s : SwapState) (q : String) (nv : List Video)
    (n : String) (h : swapInvS s) :
    swapInvS (replaceAfterFetch (replaceTruncate s q) nv n) := by
  simp only [replaceAfterFetch, replaceMerge, swapAdvance, swapRemoveOld, replaceTruncate]
  rcases h with ⟨h1, h2⟩ | h2
  · simp only [h1, h2, List.take_nil]
    split
    next hu =>
      left
      exact ⟨by simp [hu], rfl⟩
    next hu =>
      have hu' : 0 < (uniqueAgainst ([] : List Video) nv).length := by
        simpa using List.length_pos.mpr (by simpa using hu)
      have hlen : ((([] : List Video) ++ uniqueAgainst [] nv).eraseIdx 0).length
          = (uniqueAgainst ([] : List Video) nv).length - 1 := by
        rw [List.length_eraseIdx_of_lt (by simpa using hu')]
        simp
      by_cases hone : (uniqueAgainst ([] : List Video) nv).length = 1
      · left
        refine ⟨List.eq_nil_of_length_eq_zero ?_, rfl⟩
        show ((([] : List Video) ++ uniqueAgainst [] nv).eraseIdx 0).length = 0
        omega
      · right
        show 0 + 1 - 1 < ((([] : List Video) ++ uniqueAgainst [] nv).eraseIdx 0).length
        omega
  · -- the queue is non-empty and the pointer is in bounds
    have htake : (s.videos.take (s.currentIndex + 1)).length = s.currentIndex + 1 := by
      simp only [List.length_take]
      omega
    split
    next hu =>
      right
      show s.currentIndex
          < (s.videos.take (s.currentIndex + 1) ++
              uniqueAgainst (s.videos.take (s.currentIndex + 1)) nv).length
      simp only [List.length_append, htake]
      omega
    next hu =>
      have hu' : 0 < (uniqueAgainst (s.videos.take (s.currentIndex + 1)) nv).length :=
        List.length_pos.mpr hu
      right
      have hlen : (((s.videos.take (s.currentIndex + 1)) ++
            uniqueAgainst (s.videos.take (s.currentIndex + 1)) nv).eraseIdx
              s.currentIndex).length
          = s.currentIndex + (uniqueAgainst (s.videos.take (s.currentIndex + 1)) nv).length := by
        rw [List.length_eraseIdx_of_lt]
        · simp only [List.length_append, htake]
          omega
        · simp only [List.length_append, htake]
          omega
      show s.currentIndex + 1 - 1
          < (((s.videos.take (s.currentIndex + 1)) ++
              uniqueAgainst (s.videos.take (s.currentIndex + 1)) nv).eraseIdx
                s.currentIndex).length
      omega

theorem swapInvS_enqueueReplace (s : SwapState) (q : String) (res : FetchResult)
    (h : swapInvS s) : swapInvS (swapEnqueueReplace q res s) := by
  simp only [swapEnqueueReplace]
  split
  · exact h
  split
  · exact h
  match res with
  | .ok nv => exact swapInvS_replaceAfterFetch s q nv _ h
  | .error msg =>
    have := swapInvS_replaceAfterFetch s q fallbackVideos (normalizeQuery q) h
    rcases this with ⟨h1, h2⟩ | h2
    · exact Or.inl ⟨h1, h2⟩
    · exact Or.inr h2

theorem swapInvS_goToNext (s : SwapState) (h : swapInvS s) :
    swapInvS (swapGoToNext s) := by
  simp only [swapGoToNext]
  split
  next hlt =>
    right
    simp only [List.length_take]
    omega
  · exact h

theorem swapInvS_goToPrevious (s : SwapState) (h : swapInvS s) :
    swapInvS (swapGoToPrevious s) := by
  simp only [swapGoToPrevious]
  split
  next hpos =>
    rcases h with ⟨_, h2⟩ | h2
    · omega
    · right
      show s.currentIndex - 1 < s.videos.length
      omega
  · exact h

theorem swapInvS_step (s : SwapState) (op : QueueOp) (h : swapInvS s) :
    swapInvS (swapStep s op) := by
  match op with
  | .append q a res => exact swapInvS_enqueueAppend s q a res h
  | .replace q res => exact swapInvS_enqueueReplace s q res h
  | .next => exact swapInvS_goToNext s h
  | .back => exact swapInvS_goToPrevious s h
  | .clearQ => exact Or.inl ⟨rfl, rfl⟩

theorem swapInvS_foldl (ops : List QueueOp) :
    ∀ s : SwapState, swapInvS s → swapInvS (ops.foldl swapStep s) := by
  induction ops with
  | nil => exact fun s h => h
  | cons op rest ih => exact fun s h => ih (swapStep s op) (swapInvS_step s op h)

/-- C3 (amended): for every sequence of operations of the swap-choreography
queue engine (append- or replace-mode enqueue with any fetch outcome,
`goToNext`, `goToPrevious`, `clearQueue`, each run to completion including
its scheduled phases), the invariant `0 ≤ currentIndex < items.length` holds
whenever `items` is non-empty.  The `src/src` variant violates this because
its append shifts the pointer by the full fetched count. -/
theorem c3_swap_pointer_bounds (ops : List QueueOp) :
    (swapRun ops).videos = [] ∨ (swapRun ops).currentIndex < (swapRun ops).videos.length := by
  have h := swapInvS_foldl ops swapInit (Or.inl ⟨rfl, rfl⟩)
  rcases h with ⟨h1, _⟩ | h2
  · exact Or.inl h1
  · exact Or.inr h2

/-- C4 (counterexample): two enqueues whose queries trim-and-lowercase to
the same normalized string — here the empty string — can issue zero search
calls, not exactly one: `addVideosFromQuery` returns before searching when
the trimmed query is empty. -/
theorem c4_blank_queries_issue_no_search :
    normalizeQuery " " = normalizeQuery "" ∧
    (srcEnqueue " " (.ok [mkVid "V1"]) srcInit).2 = false ∧
    (srcEnqueue "" (.ok [mkVid "V1"])
        (srcEnqueue " " (.ok [mkVid "V1"]) srcInit).1).2 = false := by
  decide

theorem jsTrim_ne_empty_of_normalize (q : String) (h : normalizeQuery q ≠ "") :
    jsTrim q ≠ "" := by
  intro hq
  exact h (by rw [normalizeQuery, hq]; rfl)

theorem srcEnqueue_noop (q : String) (res : FetchResult) (s : SrcState)
    (h : jsTrim q = "" ∨ s.searchedQueries.contains (normalizeQuery q) = true) :
    srcEnqueue q res s = (s, false) := by
  by_cases ht : jsTrim q = ""
  · simp only [srcEnqueue, if_pos ht]
  · rcases h with h | h
    · exact absurd h ht
    · simp only [srcEnqueue, if_neg ht, if_pos h]

/-- C4 (amended): starting from a state in which the shared normalized
query has not been searched since the last clear, two consecutive
append-mode enqueues whose queries trim-and-lowercase to the same
*non-empty* normalized string issue exactly one underlying search call: the
first issues it, and the second is a no-op that leaves the state (hence
`items` and `currentIndex`) unchanged. -/
theorem c4_append_query_dedup (s : SrcState) (q1 q2 : String) (r1 r2 : FetchResult)
    (hnorm : normalizeQuery q1 = normalizeQuery q2)
    (hne : normalizeQuery q1 ≠ "")
    (hnew : s.searchedQueries.contains (normalizeQuery q1) = false) :
    (srcEnqueue q1 r1 s).2 = true ∧
    (srcEnqueue q2 r2 (srcEnqueue q1 r1 s).1).2 = false ∧
    (srcEnqueue q2 r2 (srcEnqueue q1 r1 s).1).1 = (srcEnqueue q1 r1 s).1 := by
  have ht1 : jsTrim q1 ≠ "" := jsTrim_ne_empty_of_normalize q1 hne
  have ht2 : jsTrim q2 ≠ "" := jsTrim_ne_empty_of_normalize q2 (hnorm ▸ hne)
  have hnotmem : ¬ s.searchedQueries.contains (normalizeQuery q1) = true := by
    rw [hnew]
    simp
  have hfirst : (srcEnqueue q1 r1 s).1.searchedQueries
      = normalizeQuery q1 :: s.searchedQueries ∧ (srcEnqueue q1 r1 s).2 = true := by
    simp only [srcEnqueue, if_neg ht1, if_neg hnotmem]
    match r1 with
    | .ok nv => exact ⟨rfl, rfl⟩
    | .error msg => exact ⟨rfl, rfl⟩
  have hmem : (srcEnqueue q1 r1 s).1.searchedQueries.contains (normalizeQuery q2) = true := by
    rw [hfirst.1, ← hnorm]
    simp
  have hnoop := srcEnqueue_noop q2 r2 (srcEnqueue q1 r1 s).1 (Or.inr hmem)
  exact ⟨hfirst.2, by rw [hnoop], by rw [hnoop]⟩

/-- C4 (witness): concrete instance of the amended dedup property with the
queries "Song X" and " song x ". -/
theorem c4_append_query_dedup_witness :
    (srcEnqueue "Song X" (.ok [mkVid "V1"]) srcInit).2 = true ∧
    (srcEnqueue " song x " (.ok [mkVid "V2"])
        (srcEnqueue "Song X" (.ok [mkVid "V1"]) srcInit).1).2 = false ∧
    (srcEnqueue " song x " (.ok [mkVid "V2"])
        (srcEnqueue "Song X" (.ok [mkVid "V1"]) srcInit).1).1
      = (srcEnqueue "Song X" (.ok [mkVid "V1"]) srcInit).1 :=
  c4_append_query_dedup srcInit "Song X" " song x " (.ok [mkVid "V1"]) (.ok [mkVid "V2"])
    (by decide) (by decide) (by decide)

theorem srcEnqueue_searched_mem (q : String) (res : FetchResult) (s : SrcState)
    (hq : jsTrim q ≠ "") :
    (srcEnqueue q res s).1.searchedQueries.contains (normalizeQuery q) = true := by
  simp only [srcEnqueue, if_neg hq]
  by_cases hmem : s.searchedQueries.contains (normalizeQuery q) = true
  · rw [if_pos hmem]
    exact hmem
  · rw [if_neg hmem]
    match res with
    | .ok nv => simp
    | .error msg => simp

theorem srcEnqueue_searched_mono (q : String) (res : FetchResult) (s : SrcState)
    (n : String) (h : s.searchedQueries.contains n = true) :
    (srcEnqueue q res s).1.searchedQueries.contains n = true := by
  simp only [srcEnqueue]
  split
  · exact h
  split
  · exact h
  match res with
  | .ok nv => simpa using Or.inr (by simpa using h)
  | .error msg => simpa using Or.inr (by simpa using h)

theorem srcRun_searched_mono (ops : List SrcOp) :
    ∀ (s : SrcState) (n : String), SrcOp.clearQ ∉ ops →
      s.searchedQueries.contains n = true →
      (srcRun ops s).searchedQueries.contains n = true := by
  induction ops with
  | nil => exact fun s n _ h => h
  | cons op rest ih =>
    intro s n hnc h
    have hop : op ≠ SrcOp.clearQ := fun he => hnc (he ▸ List.mem_cons_self op rest)
    have hrest : SrcOp.clearQ ∉ rest := fun he => hnc (List.mem_cons_of_mem op he)
    match op with
    | .enq q res =>
      exact ih (srcEnqueue q res s).1 n hrest (srcEnqueue_searched_mono q res s n h)
    | .next =>
      refine ih (srcGoToNext s) n hrest ?_
      simp only [srcGoToNext]
      split <;> exact h
    | .back =>
      refine ih (srcGoToPrevious s) n hrest ?_
      simp only [srcGoToPrevious]
      split <;> exact h
    | .clearQ => exact absurd rfl hop

/-- C9 (confirmed): in the `src/src` queue engine the normalized query is in
the searched set right after a failed append-mode search (it is added before
the fetch and the catch branch does not remove it); consequently, after any
further operations that do not clear the queue, a later enqueue of any query
with the same normalized form is a no-op that issues no search call. -/
theorem c9_failed_query_never_retried (s : SrcState) (q msg q2 : String)
    (res2 : FetchResult) (ops : List SrcOp)
    (hq : jsTrim q ≠ "")
    (hnoclear : SrcOp.clearQ ∉ ops)
    (hsame : normalizeQuery q2 = normalizeQuery q) :
    (srcEnqueue q (.error msg) s).1.searchedQueries.contains (normalizeQuery q) = true ∧
    srcEnqueue q2 res2 (srcRun ops (srcEnqueue q (.error msg) s).1)
      = (srcRun ops (srcEnqueue q (.error msg) s).1, false) := by
  have h1 := srcEnqueue_searched_mem q (.error msg) s hq
  refine ⟨h1, ?_⟩
  have h2 := srcRun_searched_mono ops (srcEnqueue q (.error msg) s).1
    (normalizeQuery q) hnoclear h1
  by_cases ht2 : jsTrim q2 = ""
  · exact srcEnqueue_noop q2 res2 _ (Or.inl ht2)
  · exact srcEnqueue_noop q2 res2 _ (Or.inr (hsame ▸ h2))

/-- C9 (witness): concrete instance — the failed query "Song X" is marked
searched, and retrying it as "song x" after a navigation is a no-op. -/
theorem c9_failed_query_never_retried_witness :
    (srcEnqueue "Song X" (.error "boom") srcInit).1.searchedQueries.contains
      (normalizeQuery "Song X") = true ∧
    srcEnqueue "song x" (.ok [mkVid "V9"])
        (srcRun [SrcOp.next] (srcEnqueue "Song X" (.error "boom") srcInit).1)
      = (srcRun [SrcOp.next] (srcEnqueue "Song X" (.error "boom") srcInit).1, false) :=
  c9_failed_query_never_retried srcInit "Song X" "boom" "song x" (.ok [mkVid "V9"])
    [SrcOp.next] (by decide) (by decide) (by decide)

theorem mergeAppendFront_error (s : FrontState) (nv : List Video) :
    (mergeAppendFront s nv).error = s.error := by
  simp only [mergeAppendFront]
  split
  · rfl
  split
  · rfl
  · rfl

/-- C6 (counterexample): in the frontend queue engine a failed append-mode
search does not set an error and does not leave `items` in their last valid
state — the static fallback payload is merged and the error cleared — and
the resulting state is exactly the state a genuine successful search
returning the fallback payload would produce, so the fallback is not
internally distinguishable from a genuine success. -/
theorem c6_failed_search_fallback_indistinguishable :
    frontEnqueueAppend "song a" (.error "network down") frontInit
      = frontEnqueueAppend "song a" (.ok fallbackVideos) frontInit ∧
    (frontEnqueueAppend "song a" (.error "network down") frontInit).1.error = none ∧
    (frontEnqueueAppend "song a" (.error "network down") frontInit).1.videos
      ≠ frontInit.videos := by
  refine ⟨?_, by decide, by decide⟩
  decide

/-- C6 (amended): on a failed video search the `src/src` queue engine sets
an error state visible to the caller and leaves `items` and `currentIndex`
in their last valid state; the frontend engine instead merges the static
fallback payload and clears the error, producing a state equal to the one a
genuine successful search returning the fallback payload would produce — so
its fallback is not internally distinguishable from a genuine success. -/
theorem c6_error_state_semantics (s : SrcState) (q msg : String)
    (sf : FrontState) (qf msgf : String)
    (hq : jsTrim q ≠ "")
    (hnew : s.searchedQueries.contains (normalizeQuery q) = false) :
    ((srcEnqueue q (.error msg) s).1.videos = s.videos ∧
     (srcEnqueue q (.error msg) s).1.currentIndex = s.currentIndex ∧
     (srcEnqueue q (.error msg) s).1.error = some msg ∧
     (srcEnqueue q (.error msg) s).2 = true) ∧
    frontEnqueueAppend qf (.error msgf) sf
      = frontEnqueueAppend qf (.ok fallbackVideos) sf := by
  constructor
  · have hnotmem : ¬ s.searchedQueries.contains (normalizeQuery q) = true := by
      rw [hnew]
      simp
    have hmem' : normalizeQuery q ∉ s.searchedQueries := by simpa using hnotmem
    simp [srcEnqueue, if_neg hq, hmem']
  · simp only [frontEnqueueAppend]
    split
    · rfl
    split
    · rfl
    next h1 h2 =>
      have he : (mergeAppendFront
          { sf with searchedQueries := normalizeQuery qf :: sf.searchedQueries,
                    isLoading := true, error := none } fallbackVideos).error = none :=
        mergeAppendFront_error _ _
      rw [Prod.mk.injEq]
      refine ⟨?_, rfl⟩
      rw [FrontState.mk.injEq]
      simp [he]

/-- C6 (witness): concrete instance — a failed search through the `src/src`
engine on a one-item queue keeps the queue and sets the error, and the
frontend fallback state coincides with the corresponding success state. -/
theorem c6_error_state_semantics_witness :
    ((srcEnqueue "song b" (.error "boom") ⟨[mkVid "V1"], 0, [], none, false⟩).1.videos
        = [mkVid "V1"] ∧
     (srcEnqueue "song b" (.error "boom") ⟨[mkVid "V1"], 0, [], none, false⟩).1.currentIndex
        = 0 ∧
     (srcEnqueue "song b" (.error "boom") ⟨[mkVid "V1"], 0, [], none, false⟩).1.error
        = some "boom" ∧
     (srcEnqueue "song b" (.error "boom") ⟨[mkVid "V1"], 0, [], none, false⟩).2 = true) ∧
    frontEnqueueAppend "song c" (.error "down") frontInit
      = frontEnqueueAppend "song c" (.ok fallbackVideos) frontInit :=
  c6_error_state_semantics ⟨[mkVid "V1"], 0, [], none, false⟩ "song b" "boom"
    frontInit "song c" "down" (by decide) (by decide)

/-- C1 (confirmed): in the swap-choreography queue engine, a replace-mode
enqueue for a query different from the active one first truncates the queue
to the items up to and including `currentIndex` and then appends the unique
new items after them; the currently playing video `B` is present (still at
`currentIndex`) in both states, the pointer is unchanged at merge time, and
the operation's remaining effect is exactly the scheduled swap
(`replaceAfterFetch`).  So `B` is never removed before the new results are
merged, and immediately after the call `items[currentIndex] = B` until the
scheduled swap completes. -/
theorem c1_replace_preserves_current (s : SwapState) (B : Video) (q : String)
    (newVideos : List Video)
    (hB : s.videos.get? s.currentIndex = some B)
    (hq : normalizeQuery q ≠ jsToLower s.currentQuery)
    (ht : jsTrim q ≠ "") :
    swapEnqueueReplace q (.ok newVideos) s
      = replaceAfterFetch (replaceTruncate s q) newVideos (normalizeQuery q) ∧
    (replaceTruncate s q).videos.get? s.currentIndex = some B ∧
    (replaceMerge (replaceTruncate s q) newVideos (normalizeQuery q)).videos.get?
        s.currentIndex = some B ∧
    (replaceMerge (replaceTruncate s q) newVideos (normalizeQuery q)).currentIndex
        = s.currentIndex ∧
    B ∈ (replaceTruncate s q).videos ∧
    B ∈ (replaceMerge (replaceTruncate s q) newVideos (normalizeQuery q)).videos := by
  have hlt : s.currentIndex < s.videos.length := by
    rcases List.get?_eq_some.mp hB with ⟨hl, _⟩
    exact hl
  have htrunc : (replaceTruncate s q).videos.get? s.currentIndex = some B := by
    show (s.videos.take (s.currentIndex + 1)).get? s.currentIndex = some B
    rw [List.get?_take (Nat.lt_succ_self _)]
    exact hB
  have hlen : s.currentIndex < (replaceTruncate s q).videos.length := by
    show s.currentIndex < (s.videos.take (s.currentIndex + 1)).length
    simp only [List.length_take]
    omega
  have hmerge : (replaceMerge (replaceTruncate s q) newVideos
      (normalizeQuery q)).videos.get? s.currentIndex = some B := by
    show ((replaceTruncate s q).videos ++
        uniqueAgainst (replaceTruncate s q).videos newVideos).get? s.currentIndex = some B
    rw [List.get?_append hlen]
    exact htrunc
  refine ⟨?_, htrunc, hmerge, rfl, ?_, ?_⟩
  · simp only [swapEnqueueReplace, if_neg ht, if_neg hq]
  · exact List.get?_mem htrunc
  · exact List.get?_mem hmerge

/-- C1 (witness): concrete instance — with `[A,B,C]`, `currentIndex = 1`
and active query "old song", a replace-enqueue of "new song" keeps `B` at
index 1 through truncation and merge. -/
theorem c1_replace_preserves_current_witness :
    swapEnqueueReplace "new song" (.ok [mkVid "D"])
        ⟨[mkVid "A", mkVid "B", mkVid "C"], 1, [], "old song", none, none, false⟩
      = replaceAfterFetch (replaceTruncate
          ⟨[mkVid "A", mkVid "B", mkVid "C"], 1, [], "old song", none, none, false⟩
          "new song") [mkVid "D"] (normalizeQuery "new song") ∧
    (replaceTruncate
        ⟨[mkVid "A", mkVid "B", mkVid "C"], 1, [], "old song", none, none, false⟩
        "new song").videos.get? 1 = some (mkVid "B") ∧
    (replaceMerge (replaceTruncate
        ⟨[mkVid "A", mkVid "B", mkVid "C"], 1, [], "old song", none, none, false⟩
        "new song") [mkVid "D"] (normalizeQuery "new song")).videos.get? 1
      = some (mkVid "B") ∧
    (replaceMerge (replaceTruncate
        ⟨[mkVid "A", mkVid "B", mkVid "C"], 1, [], "old song", none, none, false⟩
        "new song") [mkVid "D"] (normalizeQuery "new song")).currentIndex = 1 ∧
    mkVid "B" ∈ (replaceTruncate
        ⟨[mkVid "A", mkVid "B", mkVid "C"], 1, [], "old song", none, none, false⟩
        "new song").videos ∧
    mkVid "B" ∈ (replaceMerge (replaceTruncate
        ⟨[mkVid "A", mkVid "B", mkVid "C"], 1, [], "old song", none, none, false⟩
        "new song") [mkVid "D"] (normalizeQuery "new song")).videos :=
  c1_replace_preserves_current
    ⟨[mkVid "A", mkVid "B", mkVid "C"], 1, [], "old song", none, none, false⟩
    (mkVid "B") "new song" [mkVid "D"] (by decide) (by decide) (by decide)

/-- C7 (counterexample): a 200-byte capture is still sent to the Recognition
Client — the `audioBlob` effect calls `identifySong` with it unconditionally;
only the recognize server's size check stops the pipeline. -/
theorem c7_short_sample_still_reaches_client :
    (processCapturedBlob 200 (.matched ⟨"key1", "title", "artist"⟩)
        none false true).clientCalled = true := by
  decide

/-- C7 (amended): for a capture below the 1000-byte minimum the recognize
server rejects the upload with status 400 before the recognition engine is
invoked (the engine is never called); the scheduler's client call yields a
null result, so the tick behaves as a no-match — no identified-song
callback, `lastTrackKeyRef` unchanged — and `isProcessing` is reset so
ticking continues rather than raising a hard error. -/
theorem c7_short_sample_engine_never_called (blobSize : Nat) (engine : EngineOutcome)
    (lastKey : Option String) (hsize : blobSize < 1000) :
    (processCapturedBlob blobSize engine lastKey false true).engineCalled = false ∧
    (processCapturedBlob blobSize engine lastKey false true).songCallback = none ∧
    (processCapturedBlob blobSize engine lastKey false true).lastSeenTrackKey = lastKey ∧
    (processCapturedBlob blobSize engine lastKey false true).processingAfter = false ∧
    (handleRecognize blobSize engine).engineCalled = false ∧
    (handleRecognize blobSize engine).status = 400 := by
  have hresp : handleRecognize blobSize engine =
      { status := 400, success := false,
        error := some "Recording too short or empty. Allow the mic, play music, and try again.",
        track := none, engineCalled := false } := by
    simp only [handleRecognize, if_pos hsize]
  have hout : processCapturedBlob blobSize engine lastKey false true
      = ⟨true, false, none, lastKey, false⟩ := by
    simp only [processCapturedBlob, hresp, identifySong]
    simp
  rw [hout, hresp]
  exact ⟨rfl, rfl, rfl, rfl, rfl, rfl⟩

/-- C7 (witness): concrete instance at a 200-byte sample. -/
theorem c7_short_sample_engine_never_called_witness :
    (processCapturedBlob 200 (.matched ⟨"key2", "t", "a"⟩) none false true).engineCalled
        = false ∧
    (processCapturedBlob 200 (.matched ⟨"key2", "t", "a"⟩) none false true).songCallback
        = none ∧
    (processCapturedBlob 200 (.matched ⟨"key2", "t", "a"⟩) none false true).lastSeenTrackKey
        = none ∧
    (processCapturedBlob 200 (.matched ⟨"key2", "t", "a"⟩) none false true).processingAfter
        = false ∧
    (handleRecognize 200 (.matched ⟨"key2", "t", "a"⟩)).engineCalled = false ∧
    (handleRecognize 200 (.matched ⟨"key2", "t", "a"⟩)).status = 400 :=
  c7_short_sample_engine_never_called 200 (.matched ⟨"key2", "t", "a"⟩) none (by decide)

theorem gateCalls_sep (intervalMs : Nat) :
    ∀ (events : List BlobEvent) (last : Nat),
      List.Pairwise (fun a b => a.time ≤ b.time) events →
      (∀ e ∈ events, 0 < e.time) →
      (∀ e ∈ events, last ≤ e.time) →
      (∀ c ∈ gateCalls intervalMs last events,
        last ≤ c ∧ (last ≠ 0 → last + intervalMs ≤ c)) ∧
      List.Pairwise (fun a b => a + intervalMs ≤ b) (gateCalls intervalMs last events) := by
  intro events
  induction events with
  | nil =>
    intro last _ _ _
    exact ⟨fun c hc => absurd hc (List.not_mem_nil c), List.Pairwise.nil⟩
  | cons e es ih =>
    intro last hsorted hpos hlast
    have hsorted' : List.Pairwise (fun a b => a.time ≤ b.time) es :=
      (List.pairwise_cons.mp hsorted).2
    have hhead : ∀ x ∈ es, e.time ≤ x.time := (List.pairwise_cons.mp hsorted).1
    have hpos' : ∀ x ∈ es, 0 < x.time := fun x hx => hpos x (List.mem_cons_of_mem e hx)
    have hepos : 0 < e.time := hpos e (List.mem_cons_self e es)
    have hele : last ≤ e.time := hlast e (List.mem_cons_self e es)
    simp only [gateCalls, gateStep]
    by_cases hr : e.ready
    · simp only [if_pos hr]
      by_cases hskip :
          (if last = 0 then intervalMs + 1 else e.time - last) < intervalMs
      · simp only [if_pos hskip]
        exact ih last hsorted' hpos' (fun x hx => hlast x (List.mem_cons_of_mem e hx))
      · simp only [if_neg hskip]
        have hIH := ih e.time hsorted' hpos' hhead
        have hfire : last ≠ 0 → last + intervalMs ≤ e.time := by
          intro h0
          rw [if_neg h0] at hskip
          omega
        constructor
        · intro c hc
          rcases List.mem_cons.mp hc with hc | hc
          · subst hc
            exact ⟨hele, hfire⟩
          · have h1 := (hIH.1 c hc).1
            have h2 := (hIH.1 c hc).2 (by omega)
            exact ⟨by omega, fun h0 => by have := hfire h0; omega⟩
        · refine List.pairwise_cons.mpr ⟨?_, hIH.2⟩
          intro c hc
          exact (hIH.1 c hc).2 (by omega)
    · simp only [if_neg hr]
      exact ih last hsorted' hpos' (fun x hx => hlast x (List.mem_cons_of_mem e hx))

theorem pairwise_sep_window (intervalMs w : Nat) (l : List Nat)
    (h : List.Pairwise (fun a b => a + intervalMs ≤ b) l) :
    (l.filter (fun t => decide (w ≤ t) && decide (t < w + intervalMs))).length ≤ 1 := by
  have hf := h.filter (fun t => decide (w ≤ t) && decide (t < w + intervalMs))
  rcases hfl : l.filter (fun t => decide (w ≤ t) && decide (t < w + intervalMs)) with
    _ | ⟨a, _ | ⟨b, rest⟩⟩
  · simp
  · simp
  · exfalso
    rw [hfl] at hf
    have hab : a + intervalMs ≤ b := (List.pairwise_cons.mp hf).1 b (List.mem_cons_self b _)
    have ha : a ∈ l.filter (fun t => decide (w ≤ t) && decide (t < w + intervalMs)) := by
      rw [hfl]
      exact List.mem_cons_self a _
    have hb : b ∈ l.filter (fun t => decide (w ≤ t) && decide (t < w + intervalMs)) := by
      rw [hfl]
      exact List.mem_cons_of_mem a (List.mem_cons_self b rest)
    have hpa := List.of_mem_filter ha
    have hpb := List.of_mem_filter hb
    simp only [Bool.and_eq_true, decide_eq_true_eq] at hpa hpb
    omega

/-- C5 (confirmed): in the timed `useShazamRecognition` revision, (1) over
any run of blob arrivals with positive, non-decreasing timestamps, the
`audioBlob` effect's timing gate lets at most one recognition-service call
through in any window `[w, w + intervalMs)` — so two ticks that fire less
than `intervalMs` apart produce at most one actual call; (2) a
`captureAndIdentify` tick arriving when this is not the first-ever call and
less than `intervalMs` has elapsed since `lastApiCallTimeRef` is deferred
via a one-shot timer for exactly the remaining wait; and (3) the deferred
capture only starts when the flight-status re-check (not capturing, not
processing, still enabled) passes. -/
theorem c5_rate_limiting (intervalMs : Nat) (events : List BlobEvent)
    (hsorted : List.Pairwise (fun a b => a.time ≤ b.time) events)
    (hpos : ∀ e ∈ events, 0 < e.time) :
    (∀ w : Nat, ((gateCalls intervalMs 0 events).filter
        (fun t => decide (w ≤ t) && decide (t < w + intervalMs))).length ≤ 1) ∧
    (∀ now lastApiCallTime : Nat, 0 < lastApiCallTime →
      now - lastApiCallTime < intervalMs →
      captureAndIdentify true false false now lastApiCallTime intervalMs
        = .deferRecheck (intervalMs - (now - lastApiCallTime))) ∧
    (∀ c p en : Bool, deferredCaptureFires c p en = true ↔
      (c = false ∧ p = false ∧ en = true)) := by
  refine ⟨?_, ?_, ?_⟩
  · intro w
    have h := gateCalls_sep intervalMs events 0 hsorted hpos (fun e _ => Nat.zero_le _)
    exact pairwise_sep_window intervalMs w _ h.2
  · intro now lastApiCallTime h0 hlt
    simp only [captureAndIdentify]
    rw [if_neg (by simp), if_pos ⟨h0, hlt⟩]
  · intro c p en
    simp only [deferredCaptureFires]
    constructor
    · intro h
      simp only [Bool.and_eq_true, Bool.not_eq_true'] at h
      exact ⟨h.1.1, h.1.2, h.2⟩
    · rintro ⟨h1, h2, h3⟩
      subst h1
      subst h2
      subst h3
      rfl

/-- C5 (witness): concrete instance — blobs arriving at times 1000 and 1003
with a 5-ms interval produce one call; the tick at 1003 is deferred for the
remaining 2 ms; the re-check characterization at cleared flags. -/
theorem c5_rate_limiting_witness :
    (∀ w : Nat, ((gateCalls 5 0 [⟨1000, true⟩, ⟨1003, true⟩]).filter
        (fun t => decide (w ≤ t) && decide (t < w + 5))).length ≤ 1) ∧
    (∀ now lastApiCallTime : Nat, 0 < lastApiCallTime →
      now - lastApiCallTime < 5 →
      captureAndIdentify true false false now lastApiCallTime 5
        = .deferRecheck (5 - (now - lastApiCallTime))) ∧
    (∀ c p en : Bool, deferredCaptureFires c p en = true ↔
      (c = false ∧ p = false ∧ en = true)) :=
  c5_rate_limiting 5 [⟨1000, true⟩, ⟨1003, true⟩] (by decide) (by decide)

/-! ### Trimming lemmas for the transcription unit -/

theorem revDropRev_isPrefixOf (l : List Char) :
    (l.reverse.dropWhile wsChar).reverse <+: l := by
  refine ⟨(l.reverse.takeWhile wsChar).reverse, ?_⟩
  have h := List.takeWhile_append_dropWhile wsChar l.reverse
  have h2 := congrArg List.reverse h
  rw [List.reverse_append, List.reverse_reverse] at h2
  exact h2

theorem revDropRev_append_of_ne_nil (xs ys : List Char)
    (h : ys.reverse.dropWhile wsChar ≠ []) :
    ((xs ++ ys).reverse.dropWhile wsChar).reverse
      = xs ++ (ys.reverse.dropWhile wsChar).reverse := by
  rw [List.reverse_append, List.dropWhile_append,
    if_neg (by simpa [List.isEmpty_iff] using h), List.reverse_append,
    List.reverse_reverse]

theorem revDropRev_append_of_nil (xs ys : List Char)
    (h : ys.reverse.dropWhile wsChar = []) :
    ((xs ++ ys).reverse.dropWhile wsChar).reverse
      = (xs.reverse.dropWhile wsChar).reverse := by
  rw [List.reverse_append, List.dropWhile_append,
    if_pos (by simpa [List.isEmpty_iff] using h)]

theorem dropWhile_append_of_ne_nil (xs ys : List Char)
    (h : xs.dropWhile wsChar ≠ []) :
    (xs ++ ys).dropWhile wsChar = xs.dropWhile wsChar ++ ys := by
  rw [List.dropWhile_append, if_neg (by simpa [List.isEmpty_iff] using h)]

theorem trimChars_append_isPrefixOf (acc ex : List Char) :
    trimChars acc <+: trimChars (acc ++ ex) := by
  by_cases hs : acc.dropWhile wsChar = []
  · have hnil : trimChars acc = [] := by
      simp [trimChars, hs]
    rw [hnil]
    exact List.nil_prefix
  · have hstart : (acc ++ ex).dropWhile wsChar = acc.dropWhile wsChar ++ ex :=
      dropWhile_append_of_ne_nil acc ex hs
    simp only [trimChars]
    rw [hstart]
    by_cases he : ex.reverse.dropWhile wsChar = []
    · rw [revDropRev_append_of_nil _ ex he]
    · rw [revDropRev_append_of_ne_nil _ ex he]
      exact (revDropRev_isPrefixOf (acc.dropWhile wsChar)).trans
        (List.prefix_append _ _)

theorem onResultFinal_lastEmitted (s : TranscriptState) (t : List Char) :
    (onResultFinal s t).lastEmitted = s.lastEmitted := by
  simp only [onResultFinal]
  split
  · rfl
  · rfl

theorem runTranscript_chain (evs : List TEvent) :
    ∀ s : TranscriptState,
      List.Chain' (· ≠ ·) (s.lastEmitted :: (runTranscript s evs).2) := by
  induction evs with
  | nil =>
    intro s
    simp [runTranscript]
  | cons e rest ih =>
    intro s
    match e with
    | .finalSeg t =>
      have h := ih (onResultFinal s t)
      rw [onResultFinal_lastEmitted] at h
      simpa [runTranscript] using h
    | .tick =>
      by_cases hc : trimChars s.accumulated ≠ [] ∧ trimChars s.accumulated ≠ s.lastEmitted
      · have he : emitTranscript s
            = (⟨[], trimChars s.accumulated⟩, some (trimChars s.accumulated)) := by
          simp only [emitTranscript, if_pos hc]
        have h := ih ⟨[], trimChars s.accumulated⟩
        simp only [runTranscript, he, Option.toList_some, List.singleton_append]
        exact List.chain'_cons.mpr ⟨Ne.symm hc.2, h⟩
      · have he : emitTranscript s = (s, none) := by
          simp only [emitTranscript, if_neg hc]
        have h := ih s
        simpa [runTranscript, he] using h

/-- C8 (confirmed): at each emission tick of `useContinuousListening` (with
the `onNewTranscript` callback installed), the callback fires exactly when
the trimmed accumulated text is non-empty and differs from the last emitted
value; on emission the text becomes the last-emitted value and the
accumulator is cleared; and over any run of finalized-segment and tick
events, consecutive emissions always differ — the same text is never
re-emitted unless it differs from the last emission. -/
theorem c8_emission_characterization :
    (∀ s : TranscriptState, ((emitTranscript s).2).isSome ↔
        (trimChars s.accumulated ≠ [] ∧ trimChars s.accumulated ≠ s.lastEmitted)) ∧
    (∀ (s : TranscriptState) (t : List Char), (emitTranscript s).2 = some t →
        t = trimChars s.accumulated ∧
        (emitTranscript s).1.lastEmitted = t ∧
        (emitTranscript s).1.accumulated = []) ∧
    (∀ evs : List TEvent, List.Chain' (· ≠ ·) (runTranscript transcriptInit evs).2) := by
  refine ⟨?_, ?_, ?_⟩
  · intro s
    simp only [emitTranscript]
    split
    next hc => simpa using hc
    next hc => simpa using hc
  · intro s t h
    simp only [emitTranscript] at h ⊢
    split at h
    · cases h
      rw [if_pos (by assumption)]
      exact ⟨rfl, rfl, rfl⟩
    · cases h
  · intro evs
    exact (runTranscript_chain evs transcriptInit).tail

/-- C8 (witness): concrete instance — on accumulator "h" with empty
last-emitted text the tick emits, records "h" as last emitted and clears
the accumulator. -/
theorem c8_emission_characterization_witness :
    ((emitTranscript ⟨['h'], []⟩).2).isSome ∧
    (emitTranscript ⟨['h'], []⟩).1.lastEmitted = ['h'] ∧
    (emitTranscript ⟨['h'], []⟩).1.accumulated = [] := by
  have h := c8_emission_characterization
  have h2 := h.2.1 ⟨['h'], []⟩ ['h'] (by decide)
  exact ⟨(h.1 ⟨['h'], []⟩).mpr (by decide), h2.2.1, h2.2.2⟩

theorem applyFinals_lastEmitted (segs : List (List Char)) :
    ∀ s : TranscriptState, (applyFinals s segs).lastEmitted = s.lastEmitted := by
  induction segs with
  | nil => exact fun s => rfl
  | cons t rest ih =>
    intro s
    show (applyFinals (onResultFinal s t) rest).lastEmitted = s.lastEmitted
    rw [ih, onResultFinal_lastEmitted]

theorem applyFinals_accumulated (segs : List (List Char)) :
    ∀ s : TranscriptState, ∃ ex : List Char,
      (applyFinals s segs).accumulated = s.accumulated ++ ex := by
  induction segs with
  | nil => exact fun s => ⟨[], (List.append_nil _).symm⟩
  | cons t rest ih =>
    intro s
    rcases ih (onResultFinal s t) with ⟨ex, hex⟩
    have hstep : (applyFinals s (t :: rest)).accumulated
        = (onResultFinal s t).accumulated ++ ex := hex
    by_cases ht : t ≠ []
    · refine ⟨' ' :: t ++ ex, ?_⟩
      rw [hstep]
      simp only [onResultFinal, if_pos ht]
      simp
    · refine ⟨ex, ?_⟩
      rw [hstep]
      simp only [onResultFinal, if_neg ht]

/-- C10 (confirmed): when at an emission tick the trimmed accumulated text
equals the last-emitted text, nothing is emitted and the state (hence the
accumulator) is unchanged; after any further finalized segments are appended
to the retained accumulator, the next emission — whenever it fires — has
the previously emitted text as a proper prefix rather than only the new
speech. -/
theorem c10_retained_accumulator_prefix_growth (s : TranscriptState)
    (segs : List (List Char)) (t : List Char)
    (heq : trimChars s.accumulated = s.lastEmitted) :
    (emitTranscript s).2 = none ∧
    (emitTranscript s).1 = s ∧
    ((emitTranscript (applyFinals s segs)).2 = some t →
      s.lastEmitted <+: t ∧ t ≠ s.lastEmitted) := by
  have hno : ¬ (trimChars s.accumulated ≠ [] ∧ trimChars s.accumulated ≠ s.lastEmitted) :=
    fun hc => hc.2 heq
  refine ⟨?_, ?_, ?_⟩
  · simp only [emitTranscript, if_neg hno]
  · simp only [emitTranscript, if_neg hno]
  · intro h
    have hlast : (applyFinals s segs).lastEmitted = s.lastEmitted :=
      applyFinals_lastEmitted segs s
    rcases applyFinals_accumulated segs s with ⟨ex, hex⟩
    simp only [emitTranscript] at h
    split at h
    next hc =>
      cases h
      constructor
      · rw [hex, ← heq]
        exact trimChars_append_isPrefixOf s.accumulated ex
      · rw [← hlast]
        exact hc.2
    next hc => cases h

/-- C10 (witness): concrete instance — accumulator " hi" with last emitted
"hi" skips the tick unchanged; after appending the segment "yo" the next
emission is "hi yo", which has "hi" as a proper prefix. -/
theorem c10_retained_accumulator_prefix_growth_witness :
    (emitTranscript ⟨[' ', 'h', 'i'], ['h', 'i']⟩).2 = none ∧
    (emitTranscript ⟨[' ', 'h', 'i'], ['h', 'i']⟩).1 = ⟨[' ', 'h', 'i'], ['h', 'i']⟩ ∧
    ((emitTranscript (applyFinals ⟨[' ', 'h', 'i'], ['h', 'i']⟩ [['y', 'o']])).2
        = some ['h', 'i', ' ', 'y', 'o'] →
      ['h', 'i'] <+: ['h', 'i', ' ', 'y', 'o'] ∧
      ['h', 'i', ' ', 'y', 'o'] ≠ ['h', 'i']) :=
  c10_retained_accumulator_prefix_growth ⟨[' ', 'h', 'i'], ['h', 'i']⟩ [['y', 'o']]
    ['h', 'i', ' ', 'y', 'o'] (by decide)

end BollyBeat
